import Mathlib

/-!
Verification of the hueyx scheduler core (src/hueyx/consumer.py).

The development shallowly embeds the `HueyxScheduler` methods:

* `_create_time_pattern` — the minute-granularity time-slot encoder;
* `_can_execute`, `_set_execution_time_pattern`,
  `check_and_set_for_multiple_execution` — the gate-protected slot-ledger
  decision protocol;
* `enqueue_periodic_tasks` — the per-tick dispatch loop;
* `restart_dead_tasks` — the dead-task reviver.

The shared redis store is modelled as an association list from string keys
to string values.  Machine integers do not occur: every numeric field of a
timestamp is a nonnegative Python int, embedded as `Nat`.
-/

namespace Hueyx

/-! ## The shared store (redis string keys/values) -/

/-- The shared redis store, as an association list of string keys to string
values.  `conn.get` and `conn.set` from the source become `storeGet` and
`storeSet`. -/
abbrev Store : Type := List (String × String)

/-- Model of `conn.get(key)`: the value recorded under `key`, if any. -/
def storeGet : Store → String → Option String
  | [], _ => none
  | (k, v) :: rest, key => if k = key then some v else storeGet rest key

/-- Model of `conn.set(key, val)`: overwrite the value recorded under `key`. -/
def storeSet : Store → String → String → Store
  | [], key, val => [(key, val)]
  | (k, v) :: rest, key, val =>
      if k = key then (key, val) :: rest else (k, v) :: storeSet rest key val

theorem storeGet_storeSet_self (s : Store) (k v : String) :
    storeGet (storeSet s k v) k = some v := by
  induction s with
  | nil => simp [storeSet, storeGet]
  | cons hd tl ih =>
      obtain ⟨k', v'⟩ := hd
      by_cases h : k' = k
      · simp [storeSet, storeGet, h]
      · simp [storeSet, storeGet, h, ih]

theorem storeGet_storeSet_ne (s : Store) (k k' v : String) (h : k' ≠ k) :
    storeGet (storeSet s k v) k' = storeGet s k' := by
  have hkk : k ≠ k' := fun hh => h hh.symm
  induction s with
  | nil => simp [storeSet, storeGet, hkk]
  | cons hd tl ih =>
      obtain ⟨k₀, v₀⟩ := hd
      by_cases h₀ : k₀ = k
      · subst h₀
        simp [storeSet, storeGet, hkk]
      · simp [storeSet, storeGet, h₀, ih]

/-! ## Decimal rendering of naturals

Python's f-string renders a nonnegative int in decimal; Lean's `Nat.repr`
is the same rendering.  To reason about it we relate `Nat.repr` to a
big-endian digit list `natDigits`, defined with explicit fuel so that it
reduces by `decide`/`rfl`. -/

/-- Big-endian decimal digits of `n`, with fuel (any fuel greater than `n`
gives the true digit list). -/
def natDigitsAux : Nat → Nat → List Nat
  | 0, _ => []
  | fuel + 1, n => if n < 10 then [n] else natDigitsAux fuel (n / 10) ++ [n % 10]

/-- Big-endian decimal digits of `n`. -/
def natDigits (n : Nat) : List Nat := natDigitsAux (n + 1) n

theorem natDigitsAux_succ (fuel n : Nat) :
    natDigitsAux (fuel + 1) n =
      if n < 10 then [n] else natDigitsAux fuel (n / 10) ++ [n % 10] := rfl

theorem natDigitsAux_congr :
    ∀ f₁ f₂ n, n < f₁ → n < f₂ → natDigitsAux f₁ n = natDigitsAux f₂ n := by
  intro f₁
  induction f₁ with
  | zero => intro f₂ n h₁ _; omega
  | succ f₁ ih =>
      intro f₂ n h₁ h₂
      cases f₂ with
      | zero => omega
      | succ f₂ =>
          rw [natDigitsAux_succ, natDigitsAux_succ]
          by_cases h : n < 10
          · rw [if_pos h, if_pos h]
          · have hn : 0 < n := by omega
            have hdiv : n / 10 < n := Nat.div_lt_self hn (by decide)
            rw [if_neg h, if_neg h, ih f₂ (n / 10) (by omega) (by omega)]

theorem natDigits_eq (n : Nat) :
    natDigits n = if n < 10 then [n] else natDigits (n / 10) ++ [n % 10] := by
  by_cases h : n < 10
  · rw [natDigits, natDigitsAux_succ, if_pos h, if_pos h]
  · have hn : 0 < n := by omega
    have hdiv : n / 10 < n := Nat.div_lt_self hn (by decide)
    rw [natDigits, natDigitsAux_succ, if_neg h, if_neg h]
    show natDigitsAux n (n / 10) ++ _ = natDigitsAux (n / 10 + 1) (n / 10) ++ _
    rw [natDigitsAux_congr n (n / 10 + 1) (n / 10) (by omega) (by omega)]

/-- Value of a big-endian digit list. -/
def evalDigits (l : List Nat) : Nat := l.foldl (fun a d => 10 * a + d) 0

theorem evalDigits_append_single (l : List Nat) (d : Nat) :
    evalDigits (l ++ [d]) = 10 * evalDigits l + d := by
  simp [evalDigits, List.foldl_append]

theorem evalDigits_natDigits (n : Nat) : evalDigits (natDigits n) = n := by
  induction n using Nat.strong_induction_on with
  | _ n ih =>
      rw [natDigits_eq]
      by_cases h : n < 10
      · simp [evalDigits, h]
      · have hn : 0 < n := by omega
        have hdiv : n / 10 < n := Nat.div_lt_self hn (by decide)
        rw [if_neg h, evalDigits_append_single, ih (n / 10) hdiv, Nat.div_add_mod]

theorem natDigits_inj {m n : Nat} (h : natDigits m = natDigits n) : m = n := by
  rw [← evalDigits_natDigits m, ← evalDigits_natDigits n, h]

theorem natDigits_lt_ten (n : Nat) : ∀ d ∈ natDigits n, d < 10 := by
  induction n using Nat.strong_induction_on with
  | _ n ih =>
      rw [natDigits_eq]
      by_cases h : n < 10
      · simp [h]
      · have hn : 0 < n := by omega
        have hdiv : n / 10 < n := Nat.div_lt_self hn (by decide)
        rw [if_neg h]
        intro d hd
        rcases List.mem_append.1 hd with hd' | hd'
        · exact ih (n / 10) hdiv d hd'
        · simp at hd'
          omega

theorem toDigitsCore_eq :
    ∀ fuel n ds, n < fuel →
      Nat.toDigitsCore 10 fuel n ds = (natDigits n).map Nat.digitChar ++ ds := by
  intro fuel
  induction fuel with
  | zero => intro n ds h; omega
  | succ fuel ih =>
      intro n ds h
      have hstep : Nat.toDigitsCore 10 (fuel + 1) n ds =
          if n / 10 = 0 then Nat.digitChar (n % 10) :: ds
          else Nat.toDigitsCore 10 fuel (n / 10) (Nat.digitChar (n % 10) :: ds) := rfl
      by_cases h10 : n / 10 = 0
      · have hn : n < 10 := by
          by_contra hc
          have : 1 ≤ n / 10 := Nat.le_div_iff_mul_le (by decide) |>.2 (by omega)
          omega
        rw [hstep, if_pos h10, natDigits_eq, if_pos hn, Nat.mod_eq_of_lt hn]
        simp
      · have hge : 10 ≤ n := by
          by_contra hc
          exact h10 (Nat.div_eq_of_lt (by omega))
        have hdiv : n / 10 < n := Nat.div_lt_self (by omega) (by decide)
        rw [hstep, if_neg h10, ih (n / 10) _ (by omega), natDigits_eq n,
          if_neg (by omega)]
        simp

/-- Python's decimal rendering of a nonnegative int agrees with the digit
list `natDigits`. -/
theorem repr_eq_digits (n : Nat) :
    Nat.repr n = String.mk ((natDigits n).map Nat.digitChar) := by
  show (Nat.toDigits 10 n).asString = _
  rw [Nat.toDigits, toDigitsCore_eq (n + 1) n [] (by omega)]
  simp [List.asString]

theorem digitChar_inj_lt_ten :
    ∀ d₁ < 10, ∀ d₂ < 10, Nat.digitChar d₁ = Nat.digitChar d₂ → d₁ = d₂ := by
  decide

theorem digitChar_ne_dot : ∀ d < 10, Nat.digitChar d ≠ ('.' : Char) := by
  decide

/-- Character list of the decimal rendering of `n`. -/
def digitsStr (n : Nat) : List Char := (natDigits n).map Nat.digitChar

theorem map_digitChar_inj :
    ∀ l₁ l₂ : List Nat, (∀ d ∈ l₁, d < 10) → (∀ d ∈ l₂, d < 10) →
      l₁.map Nat.digitChar = l₂.map Nat.digitChar → l₁ = l₂ := by
  intro l₁
  induction l₁ with
  | nil =>
      intro l₂ _ _ h
      cases l₂ with
      | nil => rfl
      | cons b bs => simp at h
  | cons a as ih =>
      intro l₂ h₁ h₂ h
      cases l₂ with
      | nil => simp at h
      | cons b bs =>
          simp only [List.map_cons, List.cons.injEq] at h
          have ha : a < 10 := h₁ a (by simp)
          have hb : b < 10 := h₂ b (by simp)
          have hab : a = b := digitChar_inj_lt_ten a ha b hb h.1
          have htl : as = bs :=
            ih bs (fun d hd => h₁ d (by simp [hd])) (fun d hd => h₂ d (by simp [hd])) h.2
          rw [hab, htl]

theorem digitsStr_inj {m n : Nat} (h : digitsStr m = digitsStr n) : m = n :=
  natDigits_inj (map_digitChar_inj _ _ (natDigits_lt_ten m) (natDigits_lt_ten n) h)

theorem digitsStr_ne_dot (n : Nat) : ∀ c ∈ digitsStr n, c ≠ ('.' : Char) := by
  intro c hc
  rcases List.mem_map.1 hc with ⟨d, hd, rfl⟩
  exact digitChar_ne_dot d (natDigits_lt_ten n d hd)

/-- Splitting lemma: a run of non-dot characters followed by a dot determines
both the run and the remainder. -/
theorem append_dot_inj :
    ∀ (xs ys r₁ r₂ : List Char), (∀ c ∈ xs, c ≠ ('.' : Char)) →
      (∀ c ∈ ys, c ≠ ('.' : Char)) →
      xs ++ ('.' : Char) :: r₁ = ys ++ ('.' : Char) :: r₂ → xs = ys ∧ r₁ = r₂ := by
  intro xs
  induction xs with
  | nil =>
      intro ys r₁ r₂ _ hy h
      cases ys with
      | nil => simpa using h
      | cons b bs =>
          simp only [List.nil_append, List.cons_append, List.cons.injEq] at h
          exact absurd h.1.symm (hy b (by simp))
  | cons a as ih =>
      intro ys r₁ r₂ hx hy h
      cases ys with
      | nil =>
          simp only [List.nil_append, List.cons_append, List.cons.injEq] at h
          exact absurd h.1 (hx a (by simp))
      | cons b bs =>
          simp only [List.cons_append, List.cons.injEq] at h
          obtain ⟨hab, htl⟩ := h
          obtain ⟨h₁, h₂⟩ :=
            ih bs r₁ r₂ (fun c hc => hx c (by simp [hc])) (fun c hc => hy c (by simp [hc])) htl
          exact ⟨by rw [hab, h₁], h₂⟩

/-! ## Timestamps and the Time-Slot Encoder

A timestamp is embedded by the `timetuple` fields the source consumes:
`_, month, day, hour, minute, _, week_day, _, _ = now.timetuple()` — the
year and second (and yearday/isdst) are read but discarded.  `week_day` is
Python's `tm_wday` (Monday = 0). -/

structure Timestamp where
  year : Nat
  month : Nat
  day : Nat
  hour : Nat
  minute : Nat
  second : Nat
  week_day : Nat
deriving DecidableEq

/-- Embedding of `HueyxScheduler._create_time_pattern`: the standardized
time pattern `month{M}.day{D}.week_day{W}.hour{H}.minute{Min}` built by the
source's f-string (Python renders each int field in decimal, as `Nat.repr`
does). -/
def _create_time_pattern (now : Timestamp) : String :=
  ("month") ++ Nat.repr now.month ++ (".day") ++ Nat.repr now.day ++
    (".week_day") ++ Nat.repr now.week_day ++ (".hour") ++ Nat.repr now.hour ++
    (".minute") ++ Nat.repr now.minute

theorem create_time_pattern_data (t : Timestamp) :
    (_create_time_pattern t).data =
      'm' :: 'o' :: 'n' :: 't' :: 'h' ::
        (digitsStr t.month ++ '.' :: 'd' :: 'a' :: 'y' ::
          (digitsStr t.day ++ '.' :: 'w' :: 'e' :: 'e' :: 'k' :: '_' :: 'd' :: 'a' :: 'y' ::
            (digitsStr t.week_day ++ '.' :: 'h' :: 'o' :: 'u' :: 'r' ::
              (digitsStr t.hour ++ '.' :: 'm' :: 'i' :: 'n' :: 'u' :: 't' :: 'e' ::
                digitsStr t.minute)))) := by
  have h₁ : (("month") : String).data = ['m', 'o', 'n', 't', 'h'] := rfl
  have h₂ : ((".day") : String).data = ['.', 'd', 'a', 'y'] := rfl
  have h₃ : ((".week_day") : String).data =
      ['.', 'w', 'e', 'e', 'k', '_', 'd', 'a', 'y'] := rfl
  have h₄ : ((".hour") : String).data = ['.', 'h', 'o', 'u', 'r'] := rfl
  have h₅ : ((".minute") : String).data = ['.', 'm', 'i', 'n', 'u', 't', 'e'] := rfl
  simp only [_create_time_pattern, String.data_append, h₁, h₂, h₃, h₄, h₅,
    repr_eq_digits]
  simp [digitsStr, List.append_assoc, List.cons_append, List.nil_append]

theorem create_time_pattern_inj (t₁ t₂ : Timestamp)
    (h : _create_time_pattern t₁ = _create_time_pattern t₂) :
    t₁.month = t₂.month ∧ t₁.day = t₂.day ∧ t₁.week_day = t₂.week_day ∧
      t₁.hour = t₂.hour ∧ t₁.minute = t₂.minute := by
  have hd := congrArg String.data h
  rw [create_time_pattern_data, create_time_pattern_data] at hd
  simp only [List.cons.injEq, eq_self_iff_true, true_and] at hd
  obtain ⟨hm, hd⟩ :=
    append_dot_inj _ _ _ _ (digitsStr_ne_dot _) (digitsStr_ne_dot _) hd
  simp only [List.cons.injEq, eq_self_iff_true, true_and] at hd
  obtain ⟨hday, hd⟩ :=
    append_dot_inj _ _ _ _ (digitsStr_ne_dot _) (digitsStr_ne_dot _) hd
  simp only [List.cons.injEq, eq_self_iff_true, true_and] at hd
  obtain ⟨hw, hd⟩ :=
    append_dot_inj _ _ _ _ (digitsStr_ne_dot _) (digitsStr_ne_dot _) hd
  simp only [List.cons.injEq, eq_self_iff_true, true_and] at hd
  obtain ⟨hh, hd⟩ :=
    append_dot_inj _ _ _ _ (digitsStr_ne_dot _) (digitsStr_ne_dot _) hd
  simp only [List.cons.injEq, eq_self_iff_true, true_and] at hd
  exact ⟨digitsStr_inj hm, digitsStr_inj hday, digitsStr_inj hw,
    digitsStr_inj hh, digitsStr_inj hd⟩

/-! ## Gregorian dates

Models the proleptic-Gregorian fields that Python's
`datetime.timetuple()` derives for a concrete date: `tm_wday` is the day of
the week with Monday = 0, computed from the ordinal day number (ordinal 1 is
0001-01-01, a Monday), exactly as CPython's `datetime` does.  This is
external standard-library behaviour, needed only to evaluate the encoder on
the concrete datetimes the scenario claims mention. -/

def isLeapYear (y : Nat) : Bool :=
  (y % 4 == 0 && y % 100 != 0) || y % 400 == 0

/-- Days in the months before `m` in year `y` (`m` is 1-based). -/
def days_before_month (y m : Nat) : Nat :=
  let base :=
    match m with
    | 1 => 0
    | 2 => 31
    | 3 => 59
    | 4 => 90
    | 5 => 120
    | 6 => 151
    | 7 => 181
    | 8 => 212
    | 9 => 243
    | 10 => 273
    | 11 => 304
    | 12 => 334
    | _ => 0
  if 2 < m && isLeapYear y then base + 1 else base

/-- Proleptic-Gregorian ordinal of the date `y-m-d` (0001-01-01 is 1),
as Python's `date.toordinal()`. -/
def toordinal (y m d : Nat) : Nat :=
  365 * (y - 1) + (y - 1) / 4 - (y - 1) / 100 + (y - 1) / 400 +
    days_before_month y m + d

/-- Python's `tm_wday`: day of the week with Monday = 0. -/
def tm_wday (y m d : Nat) : Nat := (toordinal y m d + 6) % 7

/-- The `Timestamp` that Python's `datetime(y, mo, d, h, mi, s).timetuple()`
yields, with `tm_wday` derived from the date. -/
def datetimeTimestamp (y mo d h mi s : Nat) : Timestamp :=
  ⟨y, mo, d, h, mi, s, tm_wday y mo d⟩

/-! ## The gate-protected slot-ledger decision protocol -/

/-- Key base from the source: `full_name = "huey." + huey.name + "." + task.name`
(an f-string in the source). -/
def full_name (queueName taskName : String) : String :=
  ("huey.") ++ queueName ++ (".") ++ taskName

/-- Lock key: `full_name + ".periodic_lock"`. -/
def lock_name (queueName taskName : String) : String :=
  full_name queueName taskName ++ (".periodic_lock")

/-- Ledger key: `full_name + ".time_pattern"`. -/
def pattern_name (queueName taskName : String) : String :=
  full_name queueName taskName ++ (".time_pattern")

/-- The lease passed to `redis_lock.Lock(conn, lock_name, expire=60)`. -/
def lock_expire : Nat := 60

/-- Embedding of `_get_last_execution_time_pattern`: read the recorded slot
(the utf-8 decode of the redis bytes is the identity here, values being
modelled as strings directly). -/
def _get_last_execution_time_pattern (s : Store) (key : String) : Option String :=
  storeGet s key

/-- Embedding of `_can_execute`: true iff the recorded slot differs from the
current one (Python's `!=` between `None`/`str` and `str`). -/
def _can_execute (s : Store) (key : String) (now : Timestamp) : Bool :=
  _get_last_execution_time_pattern s key != some (_create_time_pattern now)

/-- Embedding of `_set_execution_time_pattern`: record the current slot. -/
def _set_execution_time_pattern (s : Store) (key : String) (now : Timestamp) : Store :=
  storeSet s key (_create_time_pattern now)

/-- Embedding of `check_and_set_for_multiple_execution`.  With locking
disabled it is always-eligible and touches nothing.  With locking enabled it
runs the `with redis_lock.Lock(...)` protected section: read the ledger, and
either skip (slot already recorded) or record the slot and allow the
enqueue.  The context manager's serialization across instances justifies
threading the store sequentially; its acquire/release behaviour is modelled
separately in `check_and_set_events`.  Returns the decision and the store
after the call. -/
def check_and_set_for_multiple_execution (multiple_scheduler_locking : Bool)
    (queueName taskName : String) (now : Timestamp) (s : Store) : Bool × Store :=
  if !multiple_scheduler_locking then (true, s)
  else
    if !(_can_execute s (pattern_name queueName taskName) now) then (false, s)
    else (true, _set_execution_time_pattern s (pattern_name queueName taskName) now)

theorem check_eq_false_of_recorded (queueName taskName : String) (now : Timestamp)
    (s : Store)
    (h : storeGet s (pattern_name queueName taskName) = some (_create_time_pattern now)) :
    check_and_set_for_multiple_execution true queueName taskName now s = (false, s) := by
  simp [check_and_set_for_multiple_execution, _can_execute,
    _get_last_execution_time_pattern, h]

theorem check_eq_true_of_not_recorded (queueName taskName : String) (now : Timestamp)
    (s : Store)
    (h : storeGet s (pattern_name queueName taskName) ≠ some (_create_time_pattern now)) :
    check_and_set_for_multiple_execution true queueName taskName now s =
      (true, storeSet s (pattern_name queueName taskName) (_create_time_pattern now)) := by
  simp [check_and_set_for_multiple_execution, _can_execute,
    _get_last_execution_time_pattern, _set_execution_time_pattern, h]

/-! ## Concurrent scheduler instances

The redis lock serializes the protected section, so an execution of `n`
concurrent scheduler instances racing the same task at the same `now` is
some sequential order of the `n` protected sections; the callers being
identical, one sequence covers every order. -/

/-- Run the decision protocol for `n` scheduler instances in sequence,
threading the shared store; returns each instance's decision and the final
store. -/
def run_concurrent_checks (multiple_scheduler_locking : Bool)
    (queueName taskName : String) (now : Timestamp) : Nat → Store → List Bool × Store
  | 0, s => ([], s)
  | n + 1, s =>
      let r := check_and_set_for_multiple_execution multiple_scheduler_locking
        queueName taskName now s
      let rest := run_concurrent_checks multiple_scheduler_locking
        queueName taskName now n r.2
      (r.1 :: rest.1, rest.2)

theorem run_all_false_of_recorded (queueName taskName : String) (now : Timestamp)
    (n : Nat) (s : Store)
    (h : storeGet s (pattern_name queueName taskName) = some (_create_time_pattern now)) :
    run_concurrent_checks true queueName taskName now n s =
      (List.replicate n false, s) := by
  induction n with
  | zero => simp [run_concurrent_checks]
  | succ n ih =>
      rw [run_concurrent_checks, check_eq_false_of_recorded _ _ _ _ h]
      simp [ih, List.replicate_succ]

/-- Shared sample timestamp: Python's
`datetime(2024, 3, 1, 10, 5, 30).timetuple()` fields. -/
def sampleNow : Timestamp := datetimeTimestamp 2024 3 1 10 5 30

theorem count_true_replicate_false (n : Nat) :
    (List.replicate n false).count true = 0 := by
  induction n with
  | zero => rfl
  | succ n ih => simp [List.replicate_succ, List.count_cons, ih]

/-- C1: for every task definition and fixed time slot, with multi-scheduler
locking enabled, at most one of any number of concurrent scheduler instances
running the decision protocol with the same `now` observes eligible — hence
at most one enqueue per queue, task and slot.  The Gate serializes the
protected sections, so the concurrent race is the sequential run
`run_concurrent_checks`. -/
theorem at_most_one_eligible_per_slot (queueName taskName : String) (now : Timestamp)
    (n : Nat) (s : Store) :
    ((run_concurrent_checks true queueName taskName now n s).1.count true) ≤ 1 := by
  induction n generalizing s with
  | zero => simp [run_concurrent_checks]
  | succ n ih =>
      by_cases h : storeGet s (pattern_name queueName taskName) =
        some (_create_time_pattern now)
      · rw [run_all_false_of_recorded _ _ _ (n + 1) _ h]
        simp [count_true_replicate_false]
      · have hrec := storeGet_storeSet_self s (pattern_name queueName taskName)
          (_create_time_pattern now)
        simp only [run_concurrent_checks]
        rw [check_eq_true_of_not_recorded _ _ _ _ h]
        simp only
        rw [run_all_false_of_recorded _ _ _ n _ hrec]
        simp [List.count_cons, count_true_replicate_false]

/-- C2: with locking enabled, when the ledger does not already record the
slot of `now`, two immediately successive calls of the decision protocol for
the same task and `now` yield eligible on the first call and not-eligible on
the second. -/
theorem decision_idempotent (queueName taskName : String) (now : Timestamp) (s : Store)
    (h : storeGet s (pattern_name queueName taskName) ≠ some (_create_time_pattern now)) :
    (check_and_set_for_multiple_execution true queueName taskName now s).1 = true ∧
      (check_and_set_for_multiple_execution true queueName taskName now
        (check_and_set_for_multiple_execution true queueName taskName now s).2).1 = false := by
  have hfirst := check_eq_true_of_not_recorded queueName taskName now s h
  constructor
  · rw [hfirst]
  · rw [hfirst]
    show (check_and_set_for_multiple_execution true queueName taskName now
      (storeSet s (pattern_name queueName taskName) (_create_time_pattern now))).1 = false
    rw [check_eq_false_of_recorded _ _ _ _ (storeGet_storeSet_self _ _ _)]

/-- Witness for C2 at a concrete input: empty ledger, queue q, task t,
now 2024-03-01T10:05:30. -/
theorem decision_idempotent_witness :
    (check_and_set_for_multiple_execution true ("q") ("t") sampleNow []).1 = true ∧
      (check_and_set_for_multiple_execution true ("q") ("t") sampleNow
        (check_and_set_for_multiple_execution true ("q") ("t") sampleNow []).2).1 = false :=
  decision_idempotent ("q") ("t") sampleNow [] (by decide)

/-- C3: the Time-Slot Encoder sends two timestamps to equal slot strings iff
they agree on all five of month, day, weekday, hour, minute (the year and
second being discarded); in particular timestamps differing in minute
encode differently, and the encoder is the pure total function
`_create_time_pattern`. -/
theorem time_pattern_eq_iff (t₁ t₂ : Timestamp) :
    _create_time_pattern t₁ = _create_time_pattern t₂ ↔
      (t₁.month = t₂.month ∧ t₁.day = t₂.day ∧ t₁.week_day = t₂.week_day ∧
        t₁.hour = t₂.hour ∧ t₁.minute = t₂.minute) := by
  constructor
  · exact create_time_pattern_inj t₁ t₂
  · rintro ⟨h₁, h₂, h₃, h₄, h₅⟩
    simp [_create_time_pattern, h₁, h₂, h₃, h₄, h₅]

/-- C10: with locking enabled, a not-eligible decision writes nothing: the
store after the call is exactly the store before it, on the ledger entry of
the task and on every other key alike. -/
theorem not_eligible_no_write (queueName taskName : String) (now : Timestamp) (s : Store)
    (h : (check_and_set_for_multiple_execution true queueName taskName now s).1 = false) :
    (check_and_set_for_multiple_execution true queueName taskName now s).2 = s ∧
      ∀ key, storeGet (check_and_set_for_multiple_execution true queueName taskName now s).2 key =
        storeGet s key := by
  by_cases hrec : storeGet s (pattern_name queueName taskName) =
    some (_create_time_pattern now)
  · rw [check_eq_false_of_recorded _ _ _ _ hrec]
    exact ⟨rfl, fun _ => rfl⟩
  · rw [check_eq_true_of_not_recorded _ _ _ _ hrec] at h
    simp at h

/-- Witness for C10 at a concrete input: the ledger already records the slot
of `sampleNow`, so the call is not eligible and the store is untouched. -/
theorem not_eligible_no_write_witness :
    (check_and_set_for_multiple_execution true ("q") ("t") sampleNow
        [(pattern_name ("q") ("t"), _create_time_pattern sampleNow)]).2 =
        [(pattern_name ("q") ("t"), _create_time_pattern sampleNow)] ∧
      ∀ key, storeGet (check_and_set_for_multiple_execution true ("q") ("t") sampleNow
          [(pattern_name ("q") ("t"), _create_time_pattern sampleNow)]).2 key =
        storeGet [(pattern_name ("q") ("t"), _create_time_pattern sampleNow)] key :=
  not_eligible_no_write ("q") ("t") sampleNow
    [(pattern_name ("q") ("t"), _create_time_pattern sampleNow)] (by decide)

/-! ## Redis-call event traces of the protected section

For the lock-discipline claims the protected section is replayed at the
level of the individual redis calls it makes. -/

/-- One redis call made by `check_and_set_for_multiple_execution`. -/
inductive RedisEv where
  | acquire (key : String) (expire : Nat)
  | release (key : String)
  | getKey (key : String)
  | setKey (key : String) (val : String)
deriving DecidableEq

/-- Python's `with redis_lock.Lock(conn, name, expire=e)` block: the lock is
acquired on entry and released on every exit path — normal return and raised
exception alike (context-manager semantics). -/
def withLock {α : Type} (name : String) (expire : Nat)
    (body : Except String α × List RedisEv) : Except String α × List RedisEv :=
  (body.1, RedisEv.acquire name expire :: body.2 ++ [RedisEv.release name])

/-- Model of `conn.get(key)` inside the protected section; `getFails`
injects a raised redis error (store unreachable). -/
def conn_get (getFails : Bool) (s : Store) (key : String) :
    Except String (Option String) × List RedisEv :=
  (if getFails then Except.error ("redis error") else Except.ok (storeGet s key),
    [RedisEv.getKey key])

/-- Event-level replay of the locking-enabled branch of
`check_and_set_for_multiple_execution`: under
`with redis_lock.Lock(conn, lock_name, expire=60)`, read the ledger (which
may raise) and either skip or record the slot. -/
def check_and_set_events (getFails : Bool) (queueName taskName : String)
    (now : Timestamp) (s : Store) : Except String (Bool × Store) × List RedisEv :=
  withLock (lock_name queueName taskName) lock_expire
    (match conn_get getFails s (pattern_name queueName taskName) with
     | (Except.error e, evs) => (Except.error e, evs)
     | (Except.ok v, evs) =>
        if v == some (_create_time_pattern now) then (Except.ok (false, s), evs)
        else
          (Except.ok (true, storeSet s (pattern_name queueName taskName)
              (_create_time_pattern now)),
            evs ++ [RedisEv.setKey (pattern_name queueName taskName)
              (_create_time_pattern now)]))

/-- Sanity link: with no injected failure, the event-level replay computes
the same decision and store as the state-level embedding. -/
theorem check_and_set_events_ok (queueName taskName : String) (now : Timestamp)
    (s : Store) :
    (check_and_set_events false queueName taskName now s).1 =
      Except.ok (check_and_set_for_multiple_execution true queueName taskName now s) := by
  by_cases h : storeGet s (pattern_name queueName taskName) =
    some (_create_time_pattern now)
  · rw [check_eq_false_of_recorded _ _ _ _ h]
    simp [check_and_set_events, withLock, conn_get, h]
  · rw [check_eq_true_of_not_recorded _ _ _ _ h]
    simp [check_and_set_events, withLock, conn_get, h]

/-- C9: with locking enabled, every invocation of the decision acquires the
per-task lock with the bounded 60-unit lease as its very first store
interaction — before the ledger read — and the trace ends with the release
of that lock on every exit path (eligible, not-eligible, and raised error),
with no further acquire or release in between. -/
theorem lock_acquire_release_paths (getFails : Bool) (queueName taskName : String)
    (now : Timestamp) (s : Store) :
    ∃ body, (check_and_set_events getFails queueName taskName now s).2 =
        RedisEv.acquire (lock_name queueName taskName) 60 :: body ++
          [RedisEv.release (lock_name queueName taskName)] ∧
      ∀ e ∈ body, (∀ k x, e ≠ RedisEv.acquire k x) ∧ ∀ k, e ≠ RedisEv.release k := by
  cases getFails with
  | true =>
      refine ⟨[RedisEv.getKey (pattern_name queueName taskName)], ?_, ?_⟩
      · simp [check_and_set_events, withLock, conn_get, lock_expire]
      · intro e he
        simp at he
        subst he
        exact ⟨fun k x => by simp, fun k => by simp⟩
  | false =>
      by_cases h : storeGet s (pattern_name queueName taskName) =
        some (_create_time_pattern now)
      · refine ⟨[RedisEv.getKey (pattern_name queueName taskName)], ?_, ?_⟩
        · simp [check_and_set_events, withLock, conn_get, lock_expire, h]
        · intro e he
          simp at he
          subst he
          exact ⟨fun k x => by simp, fun k => by simp⟩
      · refine ⟨[RedisEv.getKey (pattern_name queueName taskName),
          RedisEv.setKey (pattern_name queueName taskName)
            (_create_time_pattern now)], ?_, ?_⟩
        · simp [check_and_set_events, withLock, conn_get, lock_expire, h]
        · intro e he
          simp at he
          rcases he with he | he <;> subst he <;>
            exact ⟨fun k x => by simp, fun k => by simp⟩

/-- C5 counterexample: with queue q and task t, an eligible decision does
not store the slot under the claimed key q.t.time_pattern; the ledger key
the source builds carries a leading huey. namespace component. -/
theorem ledger_key_shape_counterexample :
    (check_and_set_for_multiple_execution true ("q") ("t") sampleNow []).1 = true ∧
      storeGet (check_and_set_for_multiple_execution true ("q") ("t") sampleNow []).2
        ("q.t.time_pattern") = none ∧
      storeGet (check_and_set_for_multiple_execution true ("q") ("t") sampleNow []).2
        ("huey.q.t.time_pattern") = some (_create_time_pattern sampleNow) := by
  decide

/-- C5 amended: the ledger key is huey.queue.task.time_pattern and the lock
key huey.queue.task.periodic_lock, the lock lease is 60 units, and the
decision writes to no store key other than its ledger key. -/
theorem ledger_key_shape_amended (queueName taskName : String) (now : Timestamp)
    (s : Store) :
    pattern_name queueName taskName =
        ("huey.") ++ queueName ++ (".") ++ taskName ++ (".time_pattern") ∧
      lock_name queueName taskName =
        ("huey.") ++ queueName ++ (".") ++ taskName ++ (".periodic_lock") ∧
      lock_expire = 60 ∧
      ∀ key, key ≠ pattern_name queueName taskName →
        storeGet (check_and_set_for_multiple_execution true queueName taskName now s).2
          key = storeGet s key := by
  refine ⟨rfl, rfl, rfl, ?_⟩
  intro key hk
  by_cases h : storeGet s (pattern_name queueName taskName) =
    some (_create_time_pattern now)
  · rw [check_eq_false_of_recorded _ _ _ _ h]
  · rw [check_eq_true_of_not_recorded _ _ _ _ h]
    exact storeGet_storeSet_ne s _ _ _ hk

/-- Witness for the frame part of the amended C5 at a concrete input. -/
theorem ledger_key_shape_amended_witness :
    storeGet (check_and_set_for_multiple_execution true ("q") ("t") sampleNow []).2
        ("other_key") = storeGet ([] : Store) ("other_key") :=
  (ledger_key_shape_amended ("q") ("t") sampleNow []).2.2.2 ("other_key") (by decide)

/-- C4 counterexample: Python's `datetime(2024, 3, 1, 10, 5, 30)` falls on a
Friday, whose `tm_wday` is 4, so the encoder does not produce the claimed
slot string with week_day5. -/
theorem slot_string_counterexample :
    _create_time_pattern (datetimeTimestamp 2024 3 1 10 5 30) ≠
      ("month3.day1.week_day5.hour10.minute5") := by
  decide

/-- C4 amended: the slot string is built as
month-dot-day-dot-week_day-dot-hour-dot-minute from the timetuple fields
with tm_wday weekday numbering (Monday 0); at 2024-03-01T10:05:30 (a
Friday) it is month3.day1.week_day4.hour10.minute5, and after the eligible
decision the ledger holds exactly that string for the task. -/
theorem slot_string_example_amended :
    _create_time_pattern (datetimeTimestamp 2024 3 1 10 5 30) =
        ("month3.day1.week_day4.hour10.minute5") ∧
      (check_and_set_for_multiple_execution true ("q") ("DailyReport")
          (datetimeTimestamp 2024 3 1 10 5 30) []).1 = true ∧
      storeGet (check_and_set_for_multiple_execution true ("q") ("DailyReport")
          (datetimeTimestamp 2024 3 1 10 5 30) []).2
        (pattern_name ("q") ("DailyReport")) =
        some ("month3.day1.week_day4.hour10.minute5") := by
  decide

/-! ## The per-tick dispatch loop

`enqueue_periodic_tasks` is embedded with the outcomes of its external
calls as parameters: `check` is the outcome of
`check_and_set_for_multiple_execution` for a due task (an `Except`, since
the redis calls inside it may raise), `enq` the outcome of
`enqueue_periodic_task`, and `restart` the outcome of
`restart_dead_tasks`.  The method contains no exception handling, so a
raised error anywhere propagates out of the tick. -/

/-- The `for task in self.huey.read_periodic(now)` loop: gate-check each due
task and enqueue the eligible ones.  Returns the outcome together with the
list of tasks whose check actually ran. -/
def dispatch_loop (check : String → Except String Bool)
    (enq : String → Except String Unit) :
    List String → Except String Unit × List String
  | [] => (Except.ok (), [])
  | t :: rest =>
      match check t with
      | Except.error e => (Except.error e, [t])
      | Except.ok b =>
          match (if b then enq t else Except.ok ()) with
          | Except.error e => (Except.error e, [t])
          | Except.ok _ =>
              let r := dispatch_loop check enq rest
              (r.1, t :: r.2)

/-- Embedding of `enqueue_periodic_tasks`: run the dispatch loop over the
due tasks, then `restart_dead_tasks`, then `return True`. -/
def enqueue_periodic_tasks (check : String → Except String Bool)
    (enq : String → Except String Unit) (restart : Except String Unit)
    (due : List String) : Except String Bool × List String :=
  match dispatch_loop check enq due with
  | (Except.error e, ts) => (Except.error e, ts)
  | (Except.ok _, ts) =>
      match restart with
      | Except.error e => (Except.error e, ts)
      | Except.ok _ => (Except.ok true, ts)

/-- C6 counterexample: with two due tasks a and b where the check of a
raises, the tick aborts with the error — it does not return success and the
loop never reaches b. -/
theorem tick_failure_counterexample :
    enqueue_periodic_tasks
        (fun t => if t = ("a") then Except.error ("redis down") else Except.ok true)
        (fun _ => Except.ok ()) (Except.ok ()) [("a"), ("b")] =
        (Except.error ("redis down"), [("a")]) ∧
      ("b") ∉ (enqueue_periodic_tasks
        (fun t => if t = ("a") then Except.error ("redis down") else Except.ok true)
        (fun _ => Except.ok ()) (Except.ok ()) [("a"), ("b")]).2 := by
  constructor
  · rfl
  · intro hb
    simp [enqueue_periodic_tasks, dispatch_loop] at hb

theorem dispatch_loop_error (check : String → Except String Bool)
    (enq : String → Except String Unit) (pre rest : List String) (t e : String)
    (hpre : ∀ t' ∈ pre, check t' = Except.ok false)
    (ht : check t = Except.error e) :
    dispatch_loop check enq (pre ++ t :: rest) = (Except.error e, pre ++ [t]) := by
  induction pre with
  | nil => simp [dispatch_loop, ht]
  | cons a as ih =>
      have ha : check a = Except.ok false := hpre a (by simp)
      simp [dispatch_loop, ha, ih (fun t' h' => hpre t' (by simp [h']))]

/-- C6 amended: failures are not isolated to one task definition: the first
due task whose eligibility check raises aborts the whole tick — the due
tasks after it are never processed and the error, not success, is the
tick's outcome. -/
theorem tick_failure_propagates (check : String → Except String Bool)
    (enq : String → Except String Unit) (restart : Except String Unit)
    (pre rest : List String) (t e : String)
    (hpre : ∀ t' ∈ pre, check t' = Except.ok false)
    (ht : check t = Except.error e) :
    enqueue_periodic_tasks check enq restart (pre ++ t :: rest) =
      (Except.error e, pre ++ [t]) := by
  rw [enqueue_periodic_tasks, dispatch_loop_error check enq pre rest t e hpre ht]

/-- Witness for the amended C6 at a concrete input. -/
theorem tick_failure_propagates_witness :
    enqueue_periodic_tasks
        (fun t' => if t' = ("a") then Except.error ("boom") else Except.ok false)
        (fun _ => Except.ok ()) (Except.ok ()) ([("p")] ++ ("a") :: [("b")]) =
      (Except.error ("boom"), [("p")] ++ [("a")]) :=
  tick_failure_propagates _ _ _ _ _ _ _
    (fun t' h' => by
      simp at h'
      subst h'
      rfl)
    (by rfl)

/-! ## The dead-task reviver -/

/-- A dead task instance as reported by `huey.get_dead_tasks()`: identifier,
owning task-definition name, positional and keyword arguments. -/
structure DeadTask where
  id : String
  name : String
  args : List String
  kwargs : List (String × String)
deriving DecidableEq

/-- An entry of `huey.restartable_tasks`, identified by its
`task_class.__name__`. -/
structure RestartableTask where
  className : String
deriving DecidableEq

/-- Python's substring containment `needle in hay` for strings, on the
character lists. -/
def strContainsAux (needle : List Char) : List Char → Bool
  | [] => needle.isEmpty
  | c :: rest => List.isPrefixOf needle (c :: rest) || strContainsAux needle rest

/-- Python's `needle in hay` on strings. -/
def strContains (needle hay : String) : Bool :=
  strContainsAux needle.data hay.data

/-- One external call made by the reviver: `revoke_by_id`, the destructive
`huey.get` of the heartbeat-observation key (huey's `get` is a destructive
read, clearing the record), or the fresh submission
`task_type(args, kwargs)`. -/
inductive RevEv where
  | revoke (id : String)
  | clearHeartbeat (id : String)
  | submit (className : String) (args : List String) (kwargs : List (String × String))
deriving DecidableEq

/-- Inner loop of `restart_dead_tasks` for one dead task: scan
`huey.restartable_tasks` in registration order; at the first entry whose
class name occurs in the dead task's name, revoke the dead instance, clear
its heartbeat-observation record, submit a fresh instance with the same
args and kwargs, and break out of the scan.  No match means no calls. -/
def restart_one_dead_task (registry : List RestartableTask) (task : DeadTask) :
    List RevEv :=
  match registry with
  | [] => []
  | tt :: rest =>
      if strContains tt.className task.name then
        [RevEv.revoke task.id, RevEv.clearHeartbeat task.id,
          RevEv.submit tt.className task.args task.kwargs]
      else restart_one_dead_task rest task

/-- Embedding of `restart_dead_tasks`: process every dead task in turn. -/
def restart_dead_tasks (registry : List RestartableTask)
    (deadTasks : List DeadTask) : List RevEv :=
  deadTasks.flatMap (restart_one_dead_task registry)

/-- C7: a dead task whose name matches at least one registry entry (in
registration-order scan) is revoked exactly once, its heartbeat record is
cleared, and exactly one fresh instance with identical positional and
keyword arguments is submitted — all for the first matching entry only,
since scanning stops there even when several entries match. -/
theorem revive_first_match (registry : List RestartableTask) (task : DeadTask)
    (tt : RestartableTask)
    (hfind : registry.find? (fun r => strContains r.className task.name) = some tt) :
    restart_one_dead_task registry task =
      [RevEv.revoke task.id, RevEv.clearHeartbeat task.id,
        RevEv.submit tt.className task.args task.kwargs] := by
  induction registry with
  | nil => simp at hfind
  | cons a as ih =>
      by_cases h : strContains a.className task.name
      · simp [List.find?, h] at hfind
        subst hfind
        simp [restart_one_dead_task, h]
      · simp [List.find?, h] at hfind
        simp [restart_one_dead_task, h, ih hfind]

/-- Witness for C7 at a concrete input where two registry entries match the
dead task's name but only the first wins. -/
theorem revive_first_match_witness :
    restart_one_dead_task [⟨("Daily")⟩, ⟨("Report")⟩]
        ⟨("id1"), ("DailyReport"), [("x")], [(("k"), ("v"))]⟩ =
      [RevEv.revoke ("id1"), RevEv.clearHeartbeat ("id1"),
        RevEv.submit ("Daily") [("x")] [(("k"), ("v"))]] :=
  revive_first_match _ _ ⟨("Daily")⟩ (by decide)

/-- C8: a dead task whose name matches no registry entry is a silent no-op:
no revocation, no submission, no call at all (and being a total function of
its inputs, no exception escapes). -/
theorem revive_no_match_noop (registry : List RestartableTask) (task : DeadTask)
    (h : ∀ r ∈ registry, strContains r.className task.name = false) :
    restart_one_dead_task registry task = [] := by
  induction registry with
  | nil => rfl
  | cons a as ih =>
      have ha := h a (by simp)
      simp [restart_one_dead_task, ha, ih (fun r hr => h r (by simp [hr]))]

/-- Witness for C8 at a concrete input. -/
theorem revive_no_match_noop_witness :
    restart_one_dead_task [⟨("Weekly")⟩] ⟨("id1"), ("DailyReport"), [], []⟩ = [] :=
  revive_no_match_noop _ _ (by decide)

end Hueyx
